import Mathlib

/-!
Verification of the catalog-matcher component of `spotify_tidal_transfer.py`
(`_normalize_search_text`, `_extract_primary_artist`,
`_calculate_artist_similarity`, `search_tidal_track`).

Python strings are modelled as `List Char`; the relevant inputs are ASCII, so
`Char.toLower`, `Char.isWhitespace` and `Char.isAlphanum` model `str.lower`,
`str.split`/`str.strip` whitespace and the regex class `\w` on the fragment of
the alphabet that the program manipulates.  Python floats are modelled as `ℚ`:
every literal in the scoring code (0.6, 0.2, 0.1, 0.85, ...) is exact, and the
claims only compare such values, so no rounding behaviour is lost.
-/

namespace SpotifyTidal

/-- Python strings, as lists of characters. -/
abbrev Str := List Char

/-- Python `str.lower()` (ASCII fragment). -/
def lower (s : Str) : Str := s.map Char.toLower

/-- The whitespace class used by `str.split()` / `str.strip()`. -/
def isSpaceChar (c : Char) : Bool := c.isWhitespace

/-- Python `str.lstrip()`. -/
def stripL (s : Str) : Str := s.dropWhile isSpaceChar

/-- Python `str.rstrip()`. -/
def stripR (s : Str) : Str := (s.reverse.dropWhile isSpaceChar).reverse

/-- Python `str.strip()`. -/
def strip (s : Str) : Str := stripR (stripL s)

/-- Helper for `pySplit`: accumulates the current word (reversed). -/
def pySplitAux : Str → Str → List Str
  | cur, [] => if cur = [] then [] else [cur.reverse]
  | cur, c :: rest =>
    if isSpaceChar c then
      if cur = [] then pySplitAux [] rest else cur.reverse :: pySplitAux [] rest
    else
      pySplitAux (c :: cur) rest

/-- Python `str.split()` with no argument: split on whitespace runs, dropping empties. -/
def pySplit (s : Str) : List Str := pySplitAux [] s

/-- Python's substring containment `needle in hay` (the empty string is a
substring of everything). -/
def pyIn (n : Str) : Str → Bool
  | [] => n.isEmpty
  | c :: rest => n.isPrefixOf (c :: rest) || pyIn n rest

/-- One pass of `re.sub(r'\([^)]*\)', '', text)` (and the bracket variant):
scanning left to right, a segment from an opening delimiter through the first
closing delimiter after it is dropped; an opening delimiter with no later
closing delimiter is kept verbatim.  The first argument buffers (reversed) the
characters seen since an opening delimiter that is still waiting for a close. -/
def stripDelimAux (op cl : Char) : Option Str → Str → Str
  | none, [] => []
  | some buf, [] => buf.reverse
  | none, c :: rest =>
    if c = op then stripDelimAux op cl (some [c]) rest
    else c :: stripDelimAux op cl none rest
  | some buf, c :: rest =>
    if c = cl then stripDelimAux op cl none rest
    else stripDelimAux op cl (some (c :: buf)) rest

/-- The substitution `re.sub(r'\([^)]*\)', '', text)` for a delimiter pair. -/
def stripDelim (op cl : Char) (s : Str) : Str := stripDelimAux op cl none s

/-- The regex word-character class `\w` (ASCII fragment). -/
def isWordChar (c : Char) : Bool := c.isAlphanum || c = '_'

/-- Whether an (optional) character is a word character; the virtual characters
beyond either end of the subject count as non-word characters. -/
def isWordOpt : Option Char → Bool
  | none => false
  | some c => isWordChar c

/-- The regex word-boundary assertion `\b` between two adjacent (optional)
subject characters: it holds iff exactly one side is a word character. -/
def bnd (a b : Option Char) : Bool := isWordOpt a != isWordOpt b

/-- One pass of `re.sub(r'\b' + re.escape(word) + r'\b', '', text,
flags=re.IGNORECASE)` for a literal `word` (given lower-cased): scan the
subject left to right, removing every non-overlapping occurrence of the word
that has a `\b` boundary on both sides.  `prev` is the previous subject
character (boundaries are checked against the original subject, so after a
removal `prev` becomes the last removed character).  `fuel` bounds the
recursion; it is instantiated with the subject length, which suffices because
every step consumes at least one character. -/
def removeWordAux (w : Str) : Option Char → Nat → Str → Str
  | _, _, [] => []
  | _, 0, s => s
  | prev, fuel + 1, c :: rest =>
    let s := c :: rest
    let hd := s.take w.length
    if lower hd = w ∧ bnd prev (some c) = true ∧
        bnd hd.getLast? (s.drop w.length).head? = true then
      removeWordAux w hd.getLast? fuel (s.drop w.length)
    else
      c :: removeWordAux w (some c) fuel rest

/-- Case-insensitive whole-word removal of one noise word. -/
def removeWord (w s : Str) : Str := removeWordAux w none s.length s

/-- The list `noise_words = ['feat.', 'ft.', 'featuring', 'with', 'vs.', 'vs', '&']`. -/
def noiseWords : List Str :=
  [ "feat.".data, "ft.".data, "featuring".data, "with".data,
    "vs.".data, "vs".data, "&".data ]

/-- The noise-word removal loop `for word in noise_words: text = re.sub(...)`. -/
def removeNoise (s : Str) : Str := noiseWords.foldl (fun acc w => removeWord w acc) s

/-- Function `_normalize_search_text` (lines 698-715): strip parenthesized and bracketed
segments, remove the noise words, collapse whitespace, trim. -/
def normalize_search_text (text : Str) : Str :=
  if text = [] then []
  else
    strip (List.intercalate [' ']
      (pySplit (removeNoise (stripDelim '[' ']' (stripDelim '(' ')' text)))))

/-- The text before the first occurrence of `sep` in `s`
(`s.split(sep)[0]`, assuming `sep` occurs and is non-empty). -/
def beforeFirst (sep : Str) : Str → Str
  | [] => []
  | c :: rest => if sep.isPrefixOf (c :: rest) then [] else c :: beforeFirst sep rest

/-- Function `_extract_primary_artist` (lines 717-727): split on the first separator
found, in the priority order `,`, `;`, `&`, ` and `, ` x `, ` X `, and trim;
with no separator, return the trimmed input. -/
def extract_primary_artist (s : Str) : Str :=
  if s = [] then []
  else if pyIn (",").data s then strip (beforeFirst (",".data) s)
  else if pyIn (";").data s then strip (beforeFirst (";".data) s)
  else if pyIn ("&").data s then strip (beforeFirst ("&".data) s)
  else if pyIn (" and ").data s then strip (beforeFirst (" and ".data) s)
  else if pyIn (" x ").data s then strip (beforeFirst (" x ".data) s)
  else if pyIn (" X ").data s then strip (beforeFirst (" X ".data) s)
  else strip s

/-- Function `_calculate_artist_similarity` (lines 729-758). -/
def calculate_artist_similarity (artist1 artist2 : Str) : ℚ :=
  if artist1 = [] ∨ artist2 = [] then 0
  else
    let a1 := strip (lower artist1)
    let a2 := strip (lower artist2)
    if a1 = a2 then 1.0
    else if pyIn a1 a2 ∨ pyIn a2 a1 then 0.9
    else if extract_primary_artist a1 = extract_primary_artist a2 then 0.85
    else
      let w1 := (pySplit a1).dedup
      let w2 := (pySplit a2).dedup
      if w1 ≠ [] ∧ w2 ≠ [] then
        ((w1.filter (fun w => w ∈ w2)).length : ℚ) / (max w1.length w2.length) * 0.7
      else 0.0

/-- A TIDAL search-result track, as consumed by `search_tidal_track`:
`none` fields model a missing attribute or a falsy (`None`) value, matching the
guards `hasattr(track, 'artist') and track.artist` etc.; `duration` is in
seconds. -/
structure Track where
  name : Option Str
  artistName : Option Str
  albumName : Option Str
  duration : Option Nat
deriving DecidableEq

/-- The dict `{'track': ..., 'confidence': ..., 'query_used': ...}` returned by
`search_tidal_track`. -/
structure MatchResult where
  track : Track
  confidence : ℚ
  query_used : Str
deriving DecidableEq

/-- The artist term of the candidate score (line 801-803):
`artist_sim * 0.6` with the raw `artist_name` argument and
`track.artist.name if hasattr(track, 'artist') and track.artist else ""`. -/
def artistComponent (artist_name : Str) (t : Track) : ℚ :=
  calculate_artist_similarity artist_name (t.artistName.getD []) * 0.6

/-- The album term of the candidate score (lines 806-808): awarded only when
`album_name` is truthy (present and non-empty) and `track.album` is truthy. -/
def albumComponent (album_name : Option Str) (t : Track) : ℚ :=
  match album_name, t.albumName with
  | some an, some bn => if an = [] then 0 else calculate_artist_similarity an bn * 0.2
  | _, _ => 0

/-- The duration term of the candidate score (lines 811-818): the comparison
branch runs only when `duration_ms` and `track.duration` are both truthy
(present and non-zero); otherwise a flat `0.1` is added. -/
def durationComponent (duration_ms : Option Nat) (track_duration : Option Nat) : ℚ :=
  match duration_ms, track_duration with
  | some dm, some td =>
    if dm ≠ 0 ∧ td ≠ 0 then
      if ((dm : ℤ) - (td : ℤ) * 1000).natAbs < 5000 then 0.2
      else if ((dm : ℤ) - (td : ℤ) * 1000).natAbs < 15000 then 0.1
      else 0
    else 0.1
  | _, _ => 0.1

/-- The title term of the candidate score (lines 821-823): `0.1` when the
lower-cased normalized titles contain one another. -/
def titleComponent (track_clean : Str) (t : Track) : ℚ :=
  let track_name_clean := normalize_search_text (t.name.getD [])
  if pyIn (lower track_clean) (lower track_name_clean) ∨
      pyIn (lower track_name_clean) (lower track_clean) then 0.1
  else 0

/-- The total score of one candidate (lines 797-823). -/
def scoreTrack (artist_name : Str) (album_name : Option Str)
    (duration_ms : Option Nat) (track_clean : Str) (t : Track) : ℚ :=
  artistComponent artist_name t + albumComponent album_name t +
    durationComponent duration_ms t.duration + titleComponent track_clean t

/-- The progressive fallback query list (lines 776-782), including the Python
truthiness filter `[q for q in queries if q]` which drops both `None` entries
and empty strings. -/
def buildQueries (track_clean artist_clean primary_artist : Str) : List Str :=
  ([ if primary_artist ≠ [] then
       some ('"' :: track_clean ++ '"' :: ' ' :: '"' :: primary_artist ++ ['"'])
     else none,
     if primary_artist ≠ [] then some (track_clean ++ ' ' :: primary_artist) else none,
     if artist_clean ≠ [] ∧ artist_clean ≠ primary_artist then
       some (track_clean ++ ' ' :: artist_clean)
     else none,
     some track_clean ].filterMap id).filter (fun q => !q.isEmpty)

/-- The injected destination search capability `self.tidal.search(query,
limit=10)['tracks']`; `none` models a query on which the call raises (the
`except` branch swallows it and continues with the next query). -/
abbrev SearchOracle := Str → Option (List Track)

/-- The best-match update (lines 825-829): strictly better scores replace the
current `(query_used, best_match)` pair and `best_score`. -/
def updStep (score : Track → ℚ) (st : Option (Str × Track) × ℚ) (qt : Str × Track) :
    Option (Str × Track) × ℚ :=
  if score qt.2 > st.2 then (some qt, score qt.2) else st

/-- Outcome of the query loop: final `(best_match, best_score)` state, the
candidates examined (in encounter order, paired with their query), and the
queries actually issued. -/
structure RunResult where
  state : Option (Str × Track) × ℚ
  examined : List (Str × Track)
  issued : List Str
deriving DecidableEq

/-- The query loop of `search_tidal_track` (lines 788-840): issue each query in
order; a raised search (oracle `none`) or an empty result list just continues;
otherwise score every candidate and, if the running best score has reached
`0.8`, stop issuing queries. -/
def runQueries (oracle : SearchOracle) (score : Track → ℚ) :
    List Str → (Option (Str × Track) × ℚ) → RunResult
  | [], st => ⟨st, [], []⟩
  | q :: rest, st =>
    match oracle q with
    | none =>
      let r := runQueries oracle score rest st
      ⟨r.state, r.examined, q :: r.issued⟩
    | some tracks =>
      if tracks = [] then
        let r := runQueries oracle score rest st
        ⟨r.state, r.examined, q :: r.issued⟩
      else
        let st1 := tracks.foldl (fun s t => updStep score s (q, t)) st
        if st1.2 ≥ 0.8 then ⟨st1, tracks.map (fun t => (q, t)), [q]⟩
        else
          let r := runQueries oracle score rest st1
          ⟨r.state, tracks.map (fun t => (q, t)) ++ r.examined, q :: r.issued⟩

/-- The query list used by `search_tidal_track`: inputs are normalized and the
primary artist is extracted from the normalized artist (lines 768-770). -/
def searchQueries (track_name artist_name : Str) : List Str :=
  buildQueries (normalize_search_text track_name) (normalize_search_text artist_name)
    (extract_primary_artist (normalize_search_text artist_name))

/-- The full query loop of one `search_tidal_track` run. -/
def searchRun (oracle : SearchOracle) (track_name artist_name : Str)
    (album_name : Option Str) (duration_ms : Option Nat) : RunResult :=
  runQueries oracle
    (scoreTrack artist_name album_name duration_ms (normalize_search_text track_name))
    (searchQueries track_name artist_name) (none, 0)

/-- Function `search_tidal_track` (lines 760-850): `none` both for an empty
normalized title (line 772-773) and for a best score below `0.5` (lines
842-850). -/
def search_tidal_track (oracle : SearchOracle) (track_name artist_name : Str)
    (album_name : Option Str) (duration_ms : Option Nat) : Option MatchResult :=
  if normalize_search_text track_name = [] then none
  else
    match (searchRun oracle track_name artist_name album_name duration_ms).state with
    | (some (q, t), s) => if s ≥ 0.5 then some ⟨t, s, q⟩ else none
    | (none, _) => none

/-- The candidates examined (in encounter order) during one
`search_tidal_track` run. -/
def searchExamined (oracle : SearchOracle) (track_name artist_name : Str)
    (album_name : Option Str) (duration_ms : Option Nat) : List (Str × Track) :=
  if normalize_search_text track_name = [] then []
  else (searchRun oracle track_name artist_name album_name duration_ms).examined

/-- The queries actually issued during one `search_tidal_track` run. -/
def searchIssued (oracle : SearchOracle) (track_name artist_name : Str)
    (album_name : Option Str) (duration_ms : Option Nat) : List Str :=
  if normalize_search_text track_name = [] then []
  else (searchRun oracle track_name artist_name album_name duration_ms).issued

/-- The running best score after processing a given query list, with no early
exit (used to state the early-exit claim about the issued prefix). -/
def bestScoreOver (oracle : SearchOracle) (score : Track → ℚ)
    (qs : List Str) (b : ℚ) : ℚ :=
  qs.foldl (fun b q =>
    match oracle q with
    | none => b
    | some ts => ts.foldl (fun b t => max b (score t)) b) b

/-! Definitions that follow the words of the spec's claims, for comparison with
the code-derived definitions above. -/

/-- Artist-similarity precedence exactly as claim C2 words it (no stripping of
surrounding whitespace): case-insensitive exact match, case-insensitive
substring containment, equal lower-cased primary-artist extractions, then
whitespace-token-set overlap. -/
def artistSimilaritySpecClaim (x y : Str) : ℚ :=
  if x = [] ∨ y = [] then 0
  else
    let a := lower x
    let b := lower y
    if a = b then 1.0
    else if a <:+: b ∨ b <:+: a then 0.9
    else if lower (extract_primary_artist x) = lower (extract_primary_artist y) then 0.85
    else if (pySplit a).toFinset ≠ ∅ ∧ (pySplit b).toFinset ≠ ∅ then
      (((pySplit a).toFinset ∩ (pySplit b).toFinset).card : ℚ) /
        (max (pySplit a).toFinset.card (pySplit b).toFinset.card) * 0.7
    else 0.0

/-- Artist-similarity precedence as claim C2 amended: both inputs are first
lower-cased and stripped of surrounding whitespace, and every rule (exact
match, substring containment, primary-artist extraction, token-set overlap) is
applied to these normalized forms. -/
def artistSimilarityAmended (x y : Str) : ℚ :=
  if x = [] ∨ y = [] then 0
  else
    let a := strip (lower x)
    let b := strip (lower y)
    if a = b then 1.0
    else if a <:+: b ∨ b <:+: a then 0.9
    else if extract_primary_artist a = extract_primary_artist b then 0.85
    else if (pySplit a).toFinset ≠ ∅ ∧ (pySplit b).toFinset ≠ ∅ then
      (((pySplit a).toFinset ∩ (pySplit b).toFinset).card : ℚ) /
        (max (pySplit a).toFinset.card (pySplit b).toFinset.card) * 0.7
    else 0.0

/-- The duration component exactly as claim C8 words it: whenever both
durations are present the difference is compared, and the flat `0.1` is awarded
only when a duration is unavailable on some side. -/
def durationComponentSpecClaim (duration_ms track_duration : Option Nat) : ℚ :=
  match duration_ms, track_duration with
  | some dm, some td =>
    if ((dm : ℤ) - (td : ℤ) * 1000).natAbs < 5000 then 0.2
    else if ((dm : ℤ) - (td : ℤ) * 1000).natAbs < 15000 then 0.1
    else 0
  | _, _ => 0.1

/-- Length of the leading run of quote characters (used to separate the quoted
query variant from the unquoted ones). -/
def leadQ (l : Str) : Nat := (l.takeWhile (fun c => c = '"')).length

/-! Concrete data used to exercise the search pipeline. -/

/-- A destination candidate that matches the source record
`(title "a", artist "b", album "c", 1000 ms)` perfectly. -/
def goodTrack : Track := ⟨some ("a").data, some ("b").data, some ("c").data, some 1⟩

/-- An oracle that returns the perfect candidate for every query. -/
def oracle1 : SearchOracle := fun _ => some [goodTrack]

/-- An oracle that returns no candidates for any query. -/
def oracle0 : SearchOracle := fun _ => some []

/-- The first (quoted) query produced for title `a` and primary artist `b`. -/
def q1 : Str := '"' :: ("a").data ++ '"' :: ' ' :: '"' :: ("b").data ++ ['"']


/-! Supporting lemmas. -/

theorem le_foldl_max {α : Type} (f : α → ℚ) (l : List α) (b : ℚ) :
    b ≤ l.foldl (fun b x => max b (f x)) b := by
  induction l generalizing b with
  | nil => exact le_refl b
  | cons a l ih => exact le_trans (le_max_left b (f a)) (ih (max b (f a)))

theorem foldl_max_le {α : Type} (f : α → ℚ) (l : List α) (b C : ℚ) (hb : b ≤ C)
    (h : ∀ x ∈ l, f x ≤ C) : l.foldl (fun b x => max b (f x)) b ≤ C := by
  induction l generalizing b with
  | nil => exact hb
  | cons a l ih =>
    exact ih (max b (f a)) (max_le hb (h a (List.mem_cons_self a l)))
      (fun x hx => h x (List.mem_cons_of_mem a hx))

theorem foldl_max_eq_or_mem {α : Type} (f : α → ℚ) (l : List α) (b : ℚ) :
    l.foldl (fun b x => max b (f x)) b = b ∨
      ∃ x ∈ l, f x = l.foldl (fun b x => max b (f x)) b := by
  induction l generalizing b with
  | nil => exact Or.inl rfl
  | cons a l ih =>
    rcases ih (max b (f a)) with h | h
    · simp only [List.foldl_cons, h]
      rcases max_cases b (f a) with ⟨h1, _⟩ | ⟨h1, _⟩
      · exact Or.inl h1
      · exact Or.inr ⟨a, List.mem_cons_self a l, h1.symm⟩
    · obtain ⟨x, hx, hfx⟩ := h
      exact Or.inr ⟨x, List.mem_cons_of_mem a hx, hfx⟩

theorem foldl_updStep_snd (score : Track → ℚ) (l : List (Str × Track))
    (st : Option (Str × Track) × ℚ) :
    (l.foldl (updStep score) st).2 = l.foldl (fun b qt => max b (score qt.2)) st.2 := by
  induction l generalizing st with
  | nil => rfl
  | cons a l ih =>
    simp only [List.foldl_cons, updStep]
    split
    · rename_i h
      rw [ih]
      congr 1
      exact (max_eq_right (le_of_lt h)).symm
    · rename_i h
      rw [ih]
      congr 1
      exact (max_eq_left (not_lt.mp h)).symm

theorem foldl_updStep_le (score : Track → ℚ) (l : List (Str × Track))
    (st : Option (Str × Track) × ℚ) : st.2 ≤ (l.foldl (updStep score) st).2 := by
  rw [foldl_updStep_snd]
  exact le_foldl_max _ l st.2

theorem foldl_updStep_stall (score : Track → ℚ) (l : List (Str × Track))
    (st : Option (Str × Track) × ℚ)
    (h : ¬ st.2 < (l.foldl (updStep score) st).2) :
    l.foldl (updStep score) st = st := by
  induction l generalizing st with
  | nil => rfl
  | cons a l ih =>
    simp only [List.foldl_cons, updStep] at h ⊢
    by_cases hgt : score a.2 > st.2
    · exfalso
      rw [if_pos hgt] at h
      apply h
      calc st.2 < score a.2 := hgt
        _ = ((some a, score a.2) : Option (Str × Track) × ℚ).2 := rfl
        _ ≤ _ := foldl_updStep_le score l _
    · rw [if_neg hgt] at h ⊢
      exact ih st h

theorem foldl_updStep_fst (score : Track → ℚ) (l : List (Str × Track))
    (st : Option (Str × Track) × ℚ)
    (h : st.2 < (l.foldl (updStep score) st).2) :
    (l.foldl (updStep score) st).1 =
      l.find? (fun qt => decide (score qt.2 = (l.foldl (updStep score) st).2)) := by
  induction l generalizing st with
  | nil => exact absurd h (lt_irrefl _)
  | cons a l ih =>
    simp only [List.foldl_cons, updStep] at h ⊢
    by_cases hgt : score a.2 > st.2
    · simp only [if_pos hgt] at h ⊢
      by_cases h2 : (score a.2) < (l.foldl (updStep score) (some a, score a.2)).2
      · have hfst := ih (some a, score a.2) h2
        rw [List.find?_cons]
        have hne : ¬ score a.2 = (l.foldl (updStep score) (some a, score a.2)).2 :=
          ne_of_lt h2
        simp only [hne, decide_eq_false]
        exact hfst
      · have hstall := foldl_updStep_stall score l (some a, score a.2) h2
        rw [hstall, List.find?_cons]
        simp
    · simp only [if_neg hgt] at h ⊢
      have hfst := ih st h
      rw [List.find?_cons]
      have hne : ¬ score a.2 = (l.foldl (updStep score) st).2 :=
        ne_of_lt (lt_of_le_of_lt (not_lt.mp hgt) h)
      simp only [hne, decide_eq_false]
      exact hfst

theorem runQueries_state (oracle : SearchOracle) (score : Track → ℚ)
    (qs : List Str) (st : Option (Str × Track) × ℚ) :
    (runQueries oracle score qs st).state =
      (runQueries oracle score qs st).examined.foldl (updStep score) st := by
  induction qs generalizing st with
  | nil => rfl
  | cons q rest ih =>
    simp only [runQueries]
    match horacle : oracle q with
    | none => simpa using ih st
    | some tracks =>
      by_cases hts : tracks = []
      · simp only [if_pos hts]
        simpa using ih st
      · simp only [if_neg hts]
        by_cases hge : (tracks.foldl (fun s t => updStep score s (q, t)) st).2 ≥ 0.8
        · simp only [if_pos hge, List.foldl_map]
        · simp only [if_neg hge, List.foldl_append, List.foldl_map]
          exact ih _

theorem bestScoreOver_nil (oracle : SearchOracle) (score : Track → ℚ) (b : ℚ) :
    bestScoreOver oracle score [] b = b := rfl

theorem bestScoreOver_cons (oracle : SearchOracle) (score : Track → ℚ)
    (q : Str) (qs : List Str) (b : ℚ) :
    bestScoreOver oracle score (q :: qs) b =
      bestScoreOver oracle score qs
        (match oracle q with
         | none => b
         | some ts => ts.foldl (fun b t => max b (score t)) b) := rfl

theorem runQueries_early_exit (oracle : SearchOracle) (score : Track → ℚ)
    (qs : List Str) (st : Option (Str × Track) × ℚ) (hst : st.2 < 0.8) (j : Nat)
    (h : 0.8 ≤ bestScoreOver oracle score
        ((runQueries oracle score qs st).issued.take (j + 1)) st.2) :
    (runQueries oracle score qs st).issued.length ≤ j + 1 := by
  induction qs generalizing st j with
  | nil => simp [runQueries]
  | cons q rest ih =>
    simp only [runQueries] at h ⊢
    match horacle : oracle q with
    | none =>
      simp only [horacle] at h ⊢
      simp only [List.take_succ_cons, bestScoreOver_cons, horacle] at h
      match j with
      | 0 =>
        rw [List.take_zero, bestScoreOver_nil] at h
        exact absurd h (not_le.mpr hst)
      | j' + 1 =>
        simp only [List.length_cons]
        exact Nat.succ_le_succ (ih st hst j' h)
    | some tracks =>
      by_cases hts : tracks = []
      · simp only [horacle, if_pos hts] at h ⊢
        simp only [List.take_succ_cons, bestScoreOver_cons, horacle, hts] at h
        match j with
        | 0 =>
          rw [List.take_zero, bestScoreOver_nil] at h
          exact absurd h (not_le.mpr hst)
        | j' + 1 =>
          simp only [List.length_cons]
          exact Nat.succ_le_succ (ih st hst j' h)
      · simp only [horacle, if_neg hts] at h ⊢
        by_cases hge : (tracks.foldl (fun s t => updStep score s (q, t)) st).2 ≥ 0.8
        · simp only [if_pos hge]
          simp
        · simp only [if_neg hge] at h ⊢
          have hsnd : (tracks.foldl (fun s t => updStep score s (q, t)) st).2 =
              tracks.foldl (fun b t => max b (score t)) st.2 := by
            have := foldl_updStep_snd score (tracks.map (fun t => (q, t))) st
            rw [List.foldl_map] at this
            simpa [List.foldl_map] using this
          simp only [List.take_succ_cons, bestScoreOver_cons, horacle] at h
          rw [← hsnd] at h
          match j with
          | 0 =>
            rw [List.take_zero, bestScoreOver_nil] at h
            exact absurd h (not_le.mpr (not_le.mp hge))
          | j' + 1 =>
            simp only [List.length_cons]
            exact Nat.succ_le_succ (ih _ (not_le.mp hge) j' h)

theorem sim_nonneg (x y : Str) : 0 ≤ calculate_artist_similarity x y := by
  unfold calculate_artist_similarity
  dsimp only
  split
  · norm_num
  · split
    · norm_num
    · split
      · norm_num
      · split
        · norm_num
        · split
          · apply mul_nonneg
            · apply div_nonneg
              · positivity
              · positivity
            · norm_num
          · norm_num

theorem sim_le_one (x y : Str) : calculate_artist_similarity x y ≤ 1 := by
  unfold calculate_artist_similarity
  dsimp only
  split
  · norm_num
  · split
    · norm_num
    · split
      · norm_num
      · split
        · norm_num
        · split
          · rename_i hcond
            set w1 := (pySplit (strip (lower x))).dedup with hw1
            set w2 := (pySplit (strip (lower y))).dedup with hw2
            have hlen : (w1.filter (fun w => w ∈ w2)).length ≤ max w1.length w2.length :=
              le_trans (List.length_filter_le _ _) (le_max_left _ _)
            have hpos : (0 : ℚ) < ((max w1.length w2.length : ℕ) : ℚ) := by
              have : w1 ≠ [] := hcond.1
              have h1 : 0 < w1.length := List.length_pos.mpr this
              have : 0 < max w1.length w2.length := lt_of_lt_of_le h1 (le_max_left _ _)
              exact_mod_cast this
            have hdiv : ((w1.filter (fun w => w ∈ w2)).length : ℚ) / ((max w1.length w2.length : ℕ) : ℚ) ≤ 1 := by
              rw [div_le_one hpos]
              exact_mod_cast hlen
            have hdiv0 : (0:ℚ) ≤ ((w1.filter (fun w => w ∈ w2)).length : ℚ) / ((max w1.length w2.length : ℕ) : ℚ) := by
              positivity
            calc ((w1.filter (fun w => w ∈ w2)).length : ℚ) / ((max w1.length w2.length : ℕ) : ℚ) * 0.7
                ≤ 1 * 0.7 := by
                  apply mul_le_mul_of_nonneg_right hdiv
                  norm_num
              _ ≤ 1 := by norm_num
          · norm_num

theorem artistComponent_bounds (an : Str) (t : Track) :
    0 ≤ artistComponent an t ∧ artistComponent an t ≤ 0.6 := by
  unfold artistComponent
  constructor
  · apply mul_nonneg (sim_nonneg _ _)
    norm_num
  · calc calculate_artist_similarity an (t.artistName.getD []) * 0.6 ≤ 1 * 0.6 := by
          apply mul_le_mul_of_nonneg_right (sim_le_one _ _)
          norm_num
      _ = 0.6 := by norm_num

theorem albumComponent_bounds (alb : Option Str) (t : Track) :
    0 ≤ albumComponent alb t ∧ albumComponent alb t ≤ 0.2 := by
  unfold albumComponent
  rcases alb with _ | an
  · norm_num
  · rcases t.albumName with _ | bn
    · norm_num
    · simp only
      split
      · norm_num
      · constructor
        · apply mul_nonneg (sim_nonneg _ _)
          norm_num
        · calc calculate_artist_similarity an bn * 0.2 ≤ 1 * 0.2 := by
                apply mul_le_mul_of_nonneg_right (sim_le_one _ _)
                norm_num
            _ = 0.2 := by norm_num

theorem durationComponent_bounds (dm td : Option Nat) :
    0 ≤ durationComponent dm td ∧ durationComponent dm td ≤ 0.2 := by
  unfold durationComponent
  rcases dm with _ | d
  · norm_num
  · rcases td with _ | u
    · norm_num
    · simp only
      split
      · split
        · norm_num
        · split
          · norm_num
          · norm_num
      · norm_num

theorem titleComponent_bounds (tc : Str) (t : Track) :
    0 ≤ titleComponent tc t ∧ titleComponent tc t ≤ 0.1 := by
  unfold titleComponent
  dsimp only
  constructor <;> split <;> norm_num

theorem scoreTrack_bounds (an : Str) (alb : Option Str) (dm : Option Nat)
    (tc : Str) (t : Track) : 0 ≤ scoreTrack an alb dm tc t ∧
      scoreTrack an alb dm tc t ≤ 1.1 := by
  unfold scoreTrack
  obtain ⟨h1, h2⟩ := artistComponent_bounds an t
  obtain ⟨h3, h4⟩ := albumComponent_bounds alb t
  obtain ⟨h5, h6⟩ := durationComponent_bounds dm t.duration
  obtain ⟨h7, h8⟩ := titleComponent_bounds tc t
  constructor
  · have := add_le_add (add_le_add (add_le_add h1 h3) h5) h7
    simpa using this
  · have := add_le_add (add_le_add (add_le_add h2 h4) h6) h8
    calc artistComponent an t + albumComponent alb t + durationComponent dm t.duration +
          titleComponent tc t ≤ 0.6 + 0.2 + 0.2 + 0.1 := this
      _ = 1.1 := by norm_num

theorem pyIn_iff (n h : Str) : pyIn n h = true ↔ n <:+: h := by
  induction h with
  | nil => simp [pyIn, List.isEmpty_iff, List.infix_nil]
  | cons c rest ih =>
    simp only [pyIn, Bool.or_eq_true, ih, List.infix_cons_iff,
      List.isPrefixOf_iff_prefix]

theorem contain_of_pre {a b : Str} (h : a <+: b) : a <:+: b := by
  obtain ⟨t, ht⟩ := h
  exact ⟨[], t, by simpa using ht⟩

theorem stripR_pre (l : Str) : stripR l <+: l :=
  ⟨(l.reverse.takeWhile isSpaceChar).reverse, by
    rw [stripR, ← List.reverse_append, List.takeWhile_append_dropWhile,
      List.reverse_reverse]⟩

theorem stripL_append (l m : Str) :
    stripL (l ++ m) = if stripL l = [] then stripL m else stripL l ++ m := by
  induction l with
  | nil => simp [stripL]
  | cons c l ih =>
    by_cases hc : isSpaceChar c
    · simpa [stripL, List.dropWhile_cons, hc] using ih
    · simp [stripL, List.dropWhile_cons, hc]

theorem stripR_append_nonspace (l : Str) (c : Char) (h : isSpaceChar c = false) :
    stripR (l ++ [c]) = l ++ [c] := by
  rw [stripR, List.reverse_append]
  simp only [List.reverse_cons, List.reverse_nil, List.nil_append, List.singleton_append,
    List.dropWhile_cons, h]
  simp

theorem sim_self (a : Str) (h : a ≠ []) : calculate_artist_similarity a a = 1 := by
  unfold calculate_artist_similarity
  rw [if_neg (by simp [h])]
  dsimp only
  rw [if_pos rfl]
  norm_num

theorem sim_append_extra (a : Str) (h : a ≠ []) :
    calculate_artist_similarity a (a ++ (" extra").data) = 0.9 := by
  unfold calculate_artist_similarity
  rw [if_neg (by simp [h])]
  dsimp only
  have hlx : lower (a ++ (" extra").data) = lower a ++ (" extra").data := by
    rw [lower, List.map_append]
    congr 1
  rw [hlx]
  by_cases hnil : stripL (lower a) = []
  · have ha2 : strip (lower a ++ (" extra").data) = ("extra").data := by
      rw [strip, stripL_append, if_pos hnil]
      rfl
    have ha1 : strip (lower a) = [] := by
      rw [strip, hnil]
      rfl
    rw [ha1, ha2]
    rw [if_neg (by decide), if_pos (by decide)]
  · have ha2 : strip (lower a ++ (" extra").data) = stripL (lower a) ++ (" extra").data := by
      rw [strip, stripL_append, if_neg hnil]
      have : stripL (lower a) ++ (" extra").data =
          (stripL (lower a) ++ (" extr").data) ++ ['a'] := by
        simp
      rw [this, stripR_append_nonspace _ _ (by decide)]
    have hpre : strip (lower a) <+: stripL (lower a) ++ (" extra").data := by
      have h1 : strip (lower a) <+: stripL (lower a) := stripR_pre _
      obtain ⟨t, ht⟩ := h1
      exact ⟨t ++ (" extra").data, by rw [← List.append_assoc, ht]⟩
    have hlen : (strip (lower a)).length < (stripL (lower a) ++ (" extra").data).length := by
      have h1 : (strip (lower a)).length ≤ (stripL (lower a)).length :=
        (stripR_pre (stripL (lower a))).length_le
      have h6 : ((" extra").data).length = 6 := by decide
      rw [List.length_append, h6]
      omega
    rw [ha2]
    rw [if_neg (fun hc => by rw [hc] at hlen; exact lt_irrefl _ hlen)]
    rw [if_pos (Or.inl ((pyIn_iff _ _).mpr (contain_of_pre hpre)))]

theorem sim_eq_amended (x y : Str) :
    calculate_artist_similarity x y = artistSimilarityAmended x y := by
  unfold calculate_artist_similarity artistSimilarityAmended
  by_cases h0 : x = [] ∨ y = []
  · rw [if_pos h0, if_pos h0]
  · rw [if_neg h0, if_neg h0]
    dsimp only
    by_cases h1 : strip (lower x) = strip (lower y)
    · rw [if_pos h1, if_pos h1]
    · rw [if_neg h1, if_neg h1]
      have hin : (pyIn (strip (lower x)) (strip (lower y)) = true ∨
          pyIn (strip (lower y)) (strip (lower x)) = true) ↔
          (strip (lower x) <:+: strip (lower y) ∨
            strip (lower y) <:+: strip (lower x)) := by
        rw [pyIn_iff, pyIn_iff]
      by_cases h2 : strip (lower x) <:+: strip (lower y) ∨
          strip (lower y) <:+: strip (lower x)
      · rw [if_pos (hin.mpr h2), if_pos h2]
      · rw [if_neg (fun hc => h2 (hin.mp hc)), if_neg h2]
        by_cases h3 : extract_primary_artist (strip (lower x)) =
            extract_primary_artist (strip (lower y))
        · rw [if_pos h3, if_pos h3]
        · rw [if_neg h3, if_neg h3]
          have hne : ((pySplit (strip (lower x))).dedup ≠ [] ∧
              (pySplit (strip (lower y))).dedup ≠ []) ↔
              ((pySplit (strip (lower x))).toFinset ≠ ∅ ∧
                (pySplit (strip (lower y))).toFinset ≠ ∅) := by
            simp [List.toFinset_eq_empty_iff, List.dedup_eq_nil]
          by_cases h4 : (pySplit (strip (lower x))).dedup ≠ [] ∧
              (pySplit (strip (lower y))).dedup ≠ []
          · rw [if_pos h4, if_pos (hne.mp h4)]
            have hnodup : ((pySplit (strip (lower x))).dedup.filter
                (fun w => w ∈ (pySplit (strip (lower y))).dedup)).Nodup :=
              List.Nodup.filter _ (List.nodup_dedup (pySplit (strip (lower x))))
            have hfin : ((pySplit (strip (lower x))).dedup.filter
                (fun w => w ∈ (pySplit (strip (lower y))).dedup)).toFinset =
                (pySplit (strip (lower x))).toFinset ∩ (pySplit (strip (lower y))).toFinset := by
              ext c
              simp [List.mem_filter]
            have hcard : ((pySplit (strip (lower x))).toFinset ∩
                (pySplit (strip (lower y))).toFinset).card =
                ((pySplit (strip (lower x))).dedup.filter
                  (fun w => w ∈ (pySplit (strip (lower y))).dedup)).length := by
              rw [← hfin, List.card_toFinset, hnodup.dedup]
            rw [hcard, List.card_toFinset, List.card_toFinset]
          · rw [if_neg h4, if_neg (fun hc => h4 (hne.mpr hc))]

theorem leadQ_nil : leadQ [] = 0 := rfl

theorem leadQ_cons (c : Char) (l : Str) :
    leadQ (c :: l) = if c = '"' then leadQ l + 1 else 0 := by
  simp only [leadQ, List.takeWhile_cons]
  by_cases hc : c = '"' <;> simp [hc]

theorem leadQ_le_append (l m : Str) : leadQ l ≤ leadQ (l ++ m) := by
  induction l with
  | nil => simp [leadQ]
  | cons c l ih =>
    rw [List.cons_append, leadQ_cons, leadQ_cons]
    by_cases hc : c = '"'
    · simp only [if_pos hc]
      omega
    · simp [hc]

theorem leadQ_append_nonquote (l : Str) (c : Char) (hc : c ≠ '"') (m : Str) :
    leadQ (l ++ c :: m) = leadQ l := by
  induction l with
  | nil =>
    simp only [List.nil_append, leadQ_cons, if_neg hc]
    simp [leadQ]
  | cons d l ih =>
    rw [List.cons_append, leadQ_cons, leadQ_cons, ih]

theorem ne_of_length_ne {l m : Str} (h : l.length ≠ m.length) : l ≠ m :=
  fun hEq => h (congrArg List.length hEq)

theorem qform_ne_13 (tc p ac : Str) :
    '"' :: (tc ++ '"' :: ' ' :: '"' :: (p ++ ['"'])) ≠ tc ++ ' ' :: ac := by
  intro hEq
  have h4 := congrArg leadQ hEq
  rw [leadQ_cons, if_pos rfl] at h4
  have h2 : leadQ tc ≤ leadQ (tc ++ '"' :: ' ' :: '"' :: (p ++ ['"'])) :=
    leadQ_le_append tc ('"' :: ' ' :: '"' :: (p ++ ['"']))
  have h5 : leadQ (tc ++ ' ' :: ac) = leadQ tc :=
    leadQ_append_nonquote tc ' ' (by decide) ac
  omega

theorem qform_ne_12 (tc p : Str) :
    '"' :: (tc ++ '"' :: ' ' :: '"' :: (p ++ ['"'])) ≠ tc ++ ' ' :: p := by
  apply ne_of_length_ne
  simp [List.length_append]
  omega

theorem qform_ne_1tc (tc p : Str) :
    '"' :: (tc ++ '"' :: ' ' :: '"' :: (p ++ ['"'])) ≠ tc := by
  apply ne_of_length_ne
  simp [List.length_append]
  omega

theorem qform_ne_2tc (tc p : Str) : tc ++ ' ' :: p ≠ tc := by
  apply ne_of_length_ne
  simp [List.length_append]

theorem qform_ne_23 (tc p ac : Str) (h : ac ≠ p) : tc ++ ' ' :: p ≠ tc ++ ' ' :: ac := by
  intro hEq
  exact h (List.cons_injective.eq_iff.mp (List.append_cancel_left hEq)).symm

theorem buildQueries_eq (tc ac p : Str) (htc : tc ≠ []) :
    buildQueries tc ac p =
      (if p = [] then [] else
        [ '"' :: tc ++ '"' :: ' ' :: '"' :: p ++ ['"'], tc ++ ' ' :: p ]) ++
      (if ac ≠ [] ∧ ac ≠ p then [tc ++ ' ' :: ac] else []) ++ [tc] := by
  unfold buildQueries
  by_cases hp : p = [] <;> by_cases hac1 : ac = []
  · simp [hp, hac1, htc, List.isEmpty_iff]
  · by_cases hac2 : ac = p
    · simp [hp, hac1, hac2, htc, List.isEmpty_iff]
    · simp [hp, hac1, hac2, htc, List.isEmpty_iff]
  · simp [hp, hac1, htc, List.isEmpty_iff]
  · by_cases hac2 : ac = p
    · simp [hp, hac1, hac2, htc, List.isEmpty_iff]
    · simp [hp, hac1, hac2, htc, List.isEmpty_iff]

theorem buildQueries_nodup (tc ac p : Str) (htc : tc ≠ []) :
    (buildQueries tc ac p).Nodup := by
  rw [buildQueries_eq tc ac p htc]
  have n12 := qform_ne_12 tc p
  have n13 := qform_ne_13 tc p ac
  have n1t := qform_ne_1tc tc p
  have n2t := qform_ne_2tc tc p
  have n3t := qform_ne_2tc tc ac
  by_cases hp : p = [] <;> by_cases hac : ac ≠ [] ∧ ac ≠ p
  · rw [if_pos hp, if_pos hac]
    simp [List.nodup_cons, n3t]
  · rw [if_pos hp, if_neg hac]
    simp
  · have n23 := qform_ne_23 tc p ac hac.2
    rw [if_neg hp, if_pos hac]
    simp only [List.cons_append, List.nil_append, List.append_assoc]
    simp [List.nodup_cons, List.mem_cons, n12, n13, n1t, n23, n2t, n3t]
  · rw [if_neg hp, if_neg hac]
    simp only [List.append_nil, List.cons_append, List.nil_append, List.append_assoc]
    simp [List.nodup_cons, List.mem_cons, n12, n1t, n2t]

theorem search_some_spec (oracle : SearchOracle) (tn an : Str) (alb : Option Str)
    (dm : Option Nat) (r : MatchResult)
    (h : search_tidal_track oracle tn an alb dm = some r) :
    r.confidence = (searchExamined oracle tn an alb dm).foldl
      (fun b qt => max b (scoreTrack an alb dm (normalize_search_text tn) qt.2)) 0 ∧
    (searchExamined oracle tn an alb dm).find?
      (fun qt => decide (scoreTrack an alb dm (normalize_search_text tn) qt.2 =
        r.confidence)) = some (r.query_used, r.track) := by
  unfold search_tidal_track at h
  unfold searchExamined
  by_cases htc : normalize_search_text tn = []
  · rw [if_pos htc] at h
    cases h
  · rw [if_neg htc] at h
    rw [if_neg htc]
    have hstate := runQueries_state oracle
      (scoreTrack an alb dm (normalize_search_text tn))
      (searchQueries tn an) (none, 0)
    rcases hrs : (searchRun oracle tn an alb dm).state with ⟨m, s⟩
    have hex : (m, s) = (searchRun oracle tn an alb dm).examined.foldl
        (updStep (scoreTrack an alb dm (normalize_search_text tn))) (none, 0) := by
      rw [← hrs]
      exact hstate
    rcases m with _ | ⟨q, t⟩
    · rw [hrs] at h
      cases h
    · rw [hrs] at h
      dsimp only at h
      by_cases h05 : s ≥ 0.5
      · rw [if_pos h05] at h
        obtain rfl : (⟨t, s, q⟩ : MatchResult) = r := Option.some_injective _ h
        have hsnd : s = (searchRun oracle tn an alb dm).examined.foldl
            (fun b qt => max b (scoreTrack an alb dm (normalize_search_text tn) qt.2))
            0 := by
          have h2 := congrArg Prod.snd hex
          simpa [foldl_updStep_snd] using h2
        refine ⟨hsnd, ?_⟩
        have hpos : ((none : Option (Str × Track)), (0:ℚ)).2 <
            ((searchRun oracle tn an alb dm).examined.foldl
              (updStep (scoreTrack an alb dm (normalize_search_text tn)))
              (none, 0)).2 := by
          rw [← hex]
          dsimp only
          calc (0:ℚ) < 0.5 := by norm_num
            _ ≤ s := h05
        have hfst := foldl_updStep_fst
          (scoreTrack an alb dm (normalize_search_text tn))
          (searchRun oracle tn an alb dm).examined (none, 0) hpos
        rw [← hex] at hfst
        dsimp only at hfst
        exact hfst.symm
      · rw [if_neg h05] at h
        cases h

theorem search_none_iff (oracle : SearchOracle) (tn an : Str) (alb : Option Str)
    (dm : Option Nat) :
    search_tidal_track oracle tn an alb dm = none ↔
      (searchExamined oracle tn an alb dm).foldl
        (fun b qt => max b (scoreTrack an alb dm (normalize_search_text tn) qt.2))
        0 < 0.5 := by
  unfold search_tidal_track searchExamined
  by_cases htc : normalize_search_text tn = []
  · rw [if_pos htc, if_pos htc]
    simp
    norm_num
  · rw [if_neg htc, if_neg htc]
    have hstate := runQueries_state oracle
      (scoreTrack an alb dm (normalize_search_text tn))
      (searchQueries tn an) (none, 0)
    rcases hrs : (searchRun oracle tn an alb dm).state with ⟨m, s⟩
    have hex : (m, s) = (searchRun oracle tn an alb dm).examined.foldl
        (updStep (scoreTrack an alb dm (normalize_search_text tn))) (none, 0) := by
      rw [← hrs]
      exact hstate
    have hsnd : s = (searchRun oracle tn an alb dm).examined.foldl
        (fun b qt => max b (scoreTrack an alb dm (normalize_search_text tn) qt.2))
        0 := by
      have h2 := congrArg Prod.snd hex
      simpa [foldl_updStep_snd] using h2
    rcases m with _ | ⟨q, t⟩
    · dsimp only
      simp only [true_iff]
      rw [← hsnd]
      by_contra hge
      push_neg at hge
      have hpos : ((none : Option (Str × Track)), (0:ℚ)).2 <
          ((searchRun oracle tn an alb dm).examined.foldl
            (updStep (scoreTrack an alb dm (normalize_search_text tn)))
            (none, 0)).2 := by
        rw [← hex]
        dsimp only
        calc (0:ℚ) < 0.5 := by norm_num
          _ ≤ s := hge
      have hfst := foldl_updStep_fst
        (scoreTrack an alb dm (normalize_search_text tn))
        (searchRun oracle tn an alb dm).examined (none, 0) hpos
      rw [← hex] at hfst
      dsimp only at hfst
      rcases foldl_max_eq_or_mem
          (fun qt => scoreTrack an alb dm (normalize_search_text tn) qt.2)
          (searchRun oracle tn an alb dm).examined 0 with hz | ⟨x, hx, hfx⟩
      · rw [← hsnd] at hz
        rw [hz] at hge
        norm_num at hge
      · have hsome : ((searchRun oracle tn an alb dm).examined.find?
            (fun qt => decide (scoreTrack an alb dm (normalize_search_text tn) qt.2 =
              s))).isSome := by
          rw [List.find?_isSome]
          refine ⟨x, hx, ?_⟩
          simp only [decide_eq_true_eq]
          rw [hsnd]
          exact hfx
        rw [← hfst] at hsome
        simp at hsome
    · dsimp only
      by_cases h05 : s ≥ 0.5
      · rw [if_pos h05]
        simp only [iff_iff_implies_and_implies]
        constructor
        · intro hc
          cases hc
        · intro hlt
          rw [← hsnd] at hlt
          exact absurd h05 (not_le.mpr hlt)
      · rw [if_neg h05]
        simp only [true_iff]
        rw [← hsnd]
        exact not_le.mp h05

theorem search_confidence_bounds (oracle : SearchOracle) (tn an : Str)
    (alb : Option Str) (dm : Option Nat) (r : MatchResult)
    (h : search_tidal_track oracle tn an alb dm = some r) :
    0 ≤ r.confidence ∧ r.confidence ≤ 1.1 := by
  have hspec := (search_some_spec oracle tn an alb dm r h).1
  rw [hspec]
  constructor
  · exact le_foldl_max _ _ 0
  · exact foldl_max_le _ _ 0 1.1 (by norm_num)
      (fun x _ => (scoreTrack_bounds an alb dm (normalize_search_text tn) x.2).2)


/-! Claim theorems.  One theorem per claim of the specification, with
counterexamples for the corrected claims and witnesses for the theorems
that carry hypotheses. -/

/-- Claim C1, counterexample: a candidate matching the source record on
artist, album, duration and title scores `1.1 > 1`, and `search_tidal_track`
returns that value as the confidence, so neither the per-candidate total score
nor the returned confidence lies in `[0, 1]`. -/
theorem c1_counterexample :
    scoreTrack ("b").data (some ("c").data) (some 1000) ("a").data goodTrack = 1.1 ∧
    ¬ ((1.1 : ℚ) ≤ 1) ∧
    search_tidal_track oracle1 ("a").data ("b").data (some ("c").data) (some 1000) =
      some ⟨goodTrack, 1.1, q1⟩ := by
  refine ⟨?_, by norm_num, ?_⟩
  · with_unfolding_all rfl
  · with_unfolding_all rfl

/-- Claim C1 (amended): every candidate total score computed by
`search_tidal_track` lies in `[0, 1.1]` (the four components are bounded by
`0.6 + 0.2 + 0.2 + 0.1 = 1.1`, not `1.0`), and consequently the
`confidence` of any returned `MatchResult` lies in `[0, 1.1]`. -/
theorem c1_score_range_amended :
    (∀ (an : Str) (alb : Option Str) (dm : Option Nat) (tc : Str) (t : Track),
      0 ≤ scoreTrack an alb dm tc t ∧ scoreTrack an alb dm tc t ≤ 1.1) ∧
    (∀ (oracle : SearchOracle) (tn an : Str) (alb : Option Str) (dm : Option Nat)
      (r : MatchResult), search_tidal_track oracle tn an alb dm = some r →
      0 ≤ r.confidence ∧ r.confidence ≤ 1.1) :=
  ⟨scoreTrack_bounds, search_confidence_bounds⟩

/-- Claim C1, witness: the amended range theorem applied to the concrete run
that returns confidence `1.1`. -/
theorem c1_witness :
    0 ≤ (1.1 : ℚ) ∧ (1.1 : ℚ) ≤ 1.1 :=
  c1_score_range_amended.2 oracle1 ("a").data ("b").data (some ("c").data)
    (some 1000) ⟨goodTrack, 1.1, q1⟩ (by with_unfolding_all rfl)

/-- Claim C2, counterexample: on `(" a", "a")` the code returns `1.0` (it
strips surrounding whitespace before the exact-match test), while the claim's
rule precedence — case-insensitive exact match first, then substring — yields
`0.9`. -/
theorem c2_counterexample :
    calculate_artist_similarity (" a").data ("a").data = 1 ∧
    artistSimilaritySpecClaim (" a").data ("a").data = 0.9 ∧
    (1 : ℚ) ≠ 0.9 := by
  refine ⟨?_, ?_, by norm_num⟩
  · with_unfolding_all rfl
  · with_unfolding_all rfl

/-- Claim C2 (amended): `_calculate_artist_similarity` follows the claimed
first-matching-rule precedence after both inputs are lower-cased AND stripped
of surrounding whitespace (all rules, including the primary-artist extraction,
are applied to these normalized forms); in particular `sim(a, a) = 1.0` and
`sim(a, a ++ " extra") = 0.9` for every non-empty `a`. -/
theorem c2_artist_similarity_amended :
    (∀ x y : Str, calculate_artist_similarity x y = artistSimilarityAmended x y) ∧
    (∀ a : Str, a ≠ [] →
      calculate_artist_similarity a a = 1 ∧
      calculate_artist_similarity a (a ++ (" extra").data) = 0.9) :=
  ⟨sim_eq_amended, fun a h => ⟨sim_self a h, sim_append_extra a h⟩⟩

/-- Claim C2, witness: the amended similarity theorem at the concrete
non-empty artist name `"q"`. -/
theorem c2_witness :
    calculate_artist_similarity ("q").data ("q").data = 1 ∧
    calculate_artist_similarity ("q").data (("q").data ++ (" extra").data) = 0.9 :=
  c2_artist_similarity_amended.2 ("q").data (by decide)

/-- Claim C3: `search_tidal_track` returns a `MatchResult` iff the best
candidate score over all queries tried is at least `0.5`; whenever every
scored candidate is strictly below `0.5` (including when nothing was scored),
it returns `none`. -/
theorem c3_threshold (oracle : SearchOracle) (tn an : Str) (alb : Option Str)
    (dm : Option Nat) :
    ((∃ r : MatchResult, search_tidal_track oracle tn an alb dm = some r) ↔
      0.5 ≤ (searchExamined oracle tn an alb dm).foldl
        (fun b qt => max b (scoreTrack an alb dm (normalize_search_text tn) qt.2)) 0) ∧
    ((searchExamined oracle tn an alb dm).foldl
        (fun b qt => max b (scoreTrack an alb dm (normalize_search_text tn) qt.2)) 0
        < 0.5 → search_tidal_track oracle tn an alb dm = none) := by
  have hiff := search_none_iff oracle tn an alb dm
  constructor
  · constructor
    · rintro ⟨r, hr⟩
      by_contra hlt
      push_neg at hlt
      rw [← hiff] at hlt
      rw [hr] at hlt
      cases hlt
    · intro hge
      rcases ho : search_tidal_track oracle tn an alb dm with _ | r
      · rw [hiff] at ho
        exact absurd hge (not_le.mpr ho)
      · exact ⟨r, rfl⟩
  · intro hlt
    exact hiff.mpr hlt

/-- Claim C3, witness: a run in which every query returns zero candidates is
reported as `none`. -/
theorem c3_witness :
    search_tidal_track oracle0 ("a").data ("b").data none none = none :=
  (c3_threshold oracle0 ("a").data ("b").data none none).2
    (by with_unfolding_all rfl)

/-- Claim C4: when `search_tidal_track` returns a result, its confidence is
the maximum single-candidate score over all candidates examined across the
queries actually issued, and the returned candidate/query pair is the first
one (in encounter order) attaining that maximum — strict greater-than updates
keep the earliest maximum. -/
theorem c4_confidence_is_first_max (oracle : SearchOracle) (tn an : Str)
    (alb : Option Str) (dm : Option Nat) (r : MatchResult)
    (h : search_tidal_track oracle tn an alb dm = some r) :
    r.confidence = (searchExamined oracle tn an alb dm).foldl
      (fun b qt => max b (scoreTrack an alb dm (normalize_search_text tn) qt.2)) 0 ∧
    (searchExamined oracle tn an alb dm).find?
      (fun qt => decide (scoreTrack an alb dm (normalize_search_text tn) qt.2 =
        r.confidence)) = some (r.query_used, r.track) :=
  search_some_spec oracle tn an alb dm r h

/-- Claim C4, witness: the concrete perfect-match run returns confidence
`1.1`, which is the maximum over the single examined candidate, and the
returned pair is the first candidate attaining it. -/
theorem c4_witness :
    (1.1 : ℚ) = (searchExamined oracle1 ("a").data ("b").data (some ("c").data)
      (some 1000)).foldl
      (fun b qt => max b (scoreTrack ("b").data (some ("c").data) (some 1000)
        (normalize_search_text ("a").data) qt.2)) 0 ∧
    (searchExamined oracle1 ("a").data ("b").data (some ("c").data)
      (some 1000)).find?
      (fun qt => decide (scoreTrack ("b").data (some ("c").data) (some 1000)
        (normalize_search_text ("a").data) qt.2 = (1.1 : ℚ))) =
      some (q1, goodTrack) :=
  c4_confidence_is_first_max oracle1 ("a").data ("b").data (some ("c").data)
    (some 1000) ⟨goodTrack, 1.1, q1⟩ (by with_unfolding_all rfl)

/-- Claim C5: once the running best score reaches `0.8` after the candidates
of some issued query, no further query is issued: any issued prefix of length
`j + 1` whose no-early-exit best score is already `≥ 0.8` is the whole issued
list. -/
theorem c5_early_exit (oracle : SearchOracle) (tn an : Str) (alb : Option Str)
    (dm : Option Nat) (j : Nat)
    (h : 0.8 ≤ bestScoreOver oracle
      (scoreTrack an alb dm (normalize_search_text tn))
      ((searchIssued oracle tn an alb dm).take (j + 1)) 0) :
    (searchIssued oracle tn an alb dm).length ≤ j + 1 := by
  unfold searchIssued at h ⊢
  by_cases htc : normalize_search_text tn = []
  · rw [if_pos htc]
    simp
  · rw [if_neg htc] at h ⊢
    exact runQueries_early_exit oracle
      (scoreTrack an alb dm (normalize_search_text tn))
      (searchQueries tn an) (none, 0) (by norm_num) j h

/-- Claim C5, witness: in the perfect-match run the first query already scores
`1.1 ≥ 0.8`, and indeed only that one query is issued. -/
theorem c5_witness :
    (searchIssued oracle1 ("a").data ("b").data (some ("c").data)
      (some 1000)).length ≤ 1 :=
  c5_early_exit oracle1 ("a").data ("b").data (some ("c").data) (some 1000) 0
    (of_decide_eq_true (by with_unfolding_all rfl))

/-- Claim C6 (code bug): the noise-word regexes wrap the words in `\b`, but
`\b` never matches between two non-word characters, so a standalone `feat.`
(or `&`) between spaces is NOT removed, contrary to the claim; parenthesized
and bracketed segments are stripped as claimed. -/
theorem c6_stop_words_not_removed :
    normalize_search_text ("A feat. B").data = ("A feat. B").data ∧
    normalize_search_text ("A & B").data = ("A & B").data ∧
    normalize_search_text ("Song (feat. X) [Live]").data = ("Song").data := by
  refine ⟨by decide, by decide, by decide⟩

/-- Claim C7 (code bug): `_normalize_search_text` is not idempotent: removing
`&` from `"fea&t.x"` glues the fragments into the new stop word `feat.`
(followed by a word character), which only a second application removes. -/
theorem c7_normalize_not_idempotent :
    normalize_search_text ("fea&t.x").data = ("feat.x").data ∧
    normalize_search_text (normalize_search_text ("fea&t.x").data) ≠
      normalize_search_text ("fea&t.x").data := by
  refine ⟨by decide, by decide⟩

/-- Claim C8, counterexample: a present source duration of `0 ms` is falsy in
Python, so the code awards the flat `0.1` even though both durations are
present and the claimed comparison (`|0 − 20000| ≥ 15000`) would award `0`. -/
theorem c8_counterexample :
    durationComponent (some 0) (some 20) = 0.1 ∧
    durationComponentSpecClaim (some 0) (some 20) = 0 ∧
    (0.1 : ℚ) ≠ 0 := by
  refine ⟨?_, ?_, by norm_num⟩
  · with_unfolding_all rfl
  · with_unfolding_all rfl

/-- Claim C8 (amended): when both durations are present AND non-zero the
difference `|durationMs − durationSeconds×1000|` decides the component
(`< 5000 → 0.2`, `< 15000 → 0.1`, else `0`); when a duration is unavailable
or zero on either side, a flat `0.1` is awarded. -/
theorem c8_duration_component_amended (dm td : Option Nat) (d u : Nat) :
    (dm = some d → td = some u → d ≠ 0 → u ≠ 0 →
      durationComponent dm td =
        (if ((d : ℤ) - (u : ℤ) * 1000).natAbs < 5000 then 0.2
         else if ((d : ℤ) - (u : ℤ) * 1000).natAbs < 15000 then 0.1 else 0)) ∧
    ((dm = none ∨ dm = some 0 ∨ td = none ∨ td = some 0) →
      durationComponent dm td = 0.1) := by
  constructor
  · rintro rfl rfl hd hu
    unfold durationComponent
    dsimp only
    rw [if_pos (show d ≠ 0 ∧ u ≠ 0 from ⟨hd, hu⟩)]
  · rintro (rfl | rfl | rfl | rfl)
    · rfl
    · rcases td with _ | u'
      · rfl
      · unfold durationComponent
        dsimp only
        rw [if_neg (by simp)]
    · rcases dm with _ | d'
      · rfl
      · rfl
    · rcases dm with _ | d'
      · rfl
      · unfold durationComponent
        dsimp only
        rw [if_neg (by simp)]

/-- Claim C8, witness: the spec's end-to-end example (355000 ms vs 354 s,
difference 1000 ms) gets `0.2`, and a missing source duration gets the flat
`0.1`. -/
theorem c8_witness :
    durationComponent (some 355000) (some 354) = 0.2 ∧
    durationComponent none (some 354) = 0.1 := by
  constructor
  · have h := (c8_duration_component_amended (some 355000) (some 354) 355000 354).1
      rfl rfl (by norm_num) (by norm_num)
    rw [if_pos (by decide)] at h
    exact h
  · exact (c8_duration_component_amended none (some 354) 0 0).2 (Or.inl rfl)

/-- Claim C9: for a non-empty normalized title, the query list is exactly the
claimed ordered sequence — the quoted variant and `<title> <primaryArtist>`
when the primary artist is non-empty, then `<title> <fullArtist>` when the
full artist is non-empty and differs from the primary, then the bare title as
final fallback — and it contains no duplicates. -/
theorem c9_query_generation (tc ac : Str) (htc : tc ≠ []) :
    buildQueries tc ac (extract_primary_artist ac) =
      (if extract_primary_artist ac = [] then [] else
        [ '"' :: tc ++ '"' :: ' ' :: '"' :: extract_primary_artist ac ++ ['"'],
          tc ++ ' ' :: extract_primary_artist ac ]) ++
      (if ac ≠ [] ∧ ac ≠ extract_primary_artist ac then [tc ++ ' ' :: ac] else []) ++
      [tc] ∧
    (buildQueries tc ac (extract_primary_artist ac)).Nodup :=
  ⟨buildQueries_eq tc ac (extract_primary_artist ac) htc,
   buildQueries_nodup tc ac (extract_primary_artist ac) htc⟩

/-- Claim C9, witness: for title `a` and artist `b` the generator yields the
quoted query, `a b`, and the fallback `a`, with no duplicates. -/
theorem c9_witness :
    buildQueries ("a").data ("b").data (extract_primary_artist ("b").data) =
      [q1, ("a b").data, ("a").data] ∧
    (buildQueries ("a").data ("b").data
      (extract_primary_artist ("b").data)).Nodup :=
  ⟨by decide, (c9_query_generation ("a").data ("b").data (by decide)).2⟩

/-- Claim C10: the artist names `", A"` and `", B"` are non-empty, share no
letter, yet score `0.85`, because `_extract_primary_artist` returns the empty
string for both (the text before the first `,` is blank). -/
theorem c10_blank_primary_match :
    calculate_artist_similarity (", A").data (", B").data = 0.85 ∧
    extract_primary_artist (strip (lower ((", A").data))) = [] ∧
    extract_primary_artist (strip (lower ((", B").data))) = [] ∧
    (", A").data ≠ [] ∧ (", B").data ≠ [] ∧
    (", A").data.filter (fun c => c.isAlpha && (", B").data.contains c) = [] := by
  refine ⟨?_, by decide, by decide, by decide, by decide, by decide⟩
  with_unfolding_all rfl

end SpotifyTidal
